import Mathlib

set_option maxRecDepth 8000

/-!
Verification of the signal-derivation engine of the portfolio repository
(python-functionapp/calculations.py) against its specification.

The Python functions are shallowly embedded as Lean functions:
  - price bars, anchored-VWAP rows, zone records and the persisted
    per-instrument row become structures over the rationals;
  - the relational store becomes an explicit InstrumentState value threaded
    through process_stock_data (each UPDATE becomes a field update);
  - a pandas DataFrame becomes a list of rows plus flags for the properties
    the code inspects (index kind, presence of the close and split_factor
    columns); a NaN vwap value (division of zero by zero cumulative volume)
    becomes Option.none, and comparisons against it are false, as in pandas.
Dates are natural numbers (ordinals of calendar days).
-/

/-- Trade signal values stored in the stocks table. -/
inductive Sig where
  | BUY
  | SELL
deriving DecidableEq, Repr

/-- Zone colors of the zone_state table. -/
inductive Color where
  | green
  | red
deriving DecidableEq, Repr

/-- One daily price bar (a row of the symbol's cache table). -/
structure Bar where
  date : Nat
  openPrice : ℚ
  high : ℚ
  low : ℚ
  close : ℚ
  volume : ℚ
  split_factor : ℚ
deriving DecidableEq, Repr

/-- A row of the frame returned by calculate_anchored_vwap: the columns the
downstream detectors read (index date, close, vwap).  vwap = none models the
NaN produced by a zero cumulative volume. -/
structure VwapRow where
  date : Nat
  close : ℚ
  vwap : Option ℚ
deriving DecidableEq, Repr

/-- The persisted per-instrument row of the stocks table (the fields the
engine reads and writes). -/
structure InstrumentState where
  all_time_high : Option ℚ
  all_time_high_date : Option Nat
  trade_signal : Option Sig
  last_trade_signal : Option Sig
deriving DecidableEq, Repr

/-- The daily_data argument of process_stock_data: its rows plus the frame
properties the code checks (isinstance DatetimeIndex, membership of the
close and split_factor columns). -/
structure StockWindow where
  rows : List Bar
  isDatetimeIndex : Bool
  hasClose : Bool
  hasSplitFactor : Bool
deriving DecidableEq, Repr

/-- Bar with open = high = low = close, used by the concrete test series. -/
def mkBar (d : Nat) (c : ℚ) (v : ℚ) (s : ℚ) : Bar :=
  ⟨d, c, c, c, c, v, s⟩

/-! ## Anchored VWAP calculator (calculate_anchored_vwap, lines 337-365) -/

/-- The cumulative pass of calculate_anchored_vwap: running sums of
typical_price * volume and of volume; vwap is their quotient, none when the
cumulative volume is zero (pandas produces NaN there: the row is kept). -/
def cavAux (cpv cv : ℚ) : List Bar → List VwapRow
  | [] => []
  | b :: rest =>
    let tp := (b.high + b.low + b.close) / 3
    let cpv' := cpv + tp * b.volume
    let cv' := cv + b.volume
    let v : Option ℚ := if cv' = 0 then none else some (cpv' / cv')
    ⟨b.date, b.close, v⟩ :: cavAux cpv' cv' rest

/-- calculate_anchored_vwap: restrict the bars to dates at or after the
anchor date and accumulate from there (sums reset at the anchor). -/
def calculate_anchored_vwap (data : List Bar) (anchor_date : Nat) : List VwapRow :=
  cavAux 0 0 (data.filter (fun b => anchor_date ≤ b.date))

/-! ## Crossover signal detector (find_b_signal etc., lines 367-463)

pandas comparisons against NaN are False, so each comparison against a vwap
value takes an Option and returns false on none. -/

/-- close > vwap, false when vwap is NaN. -/
def gtO (c : ℚ) (v : Option ℚ) : Bool :=
  match v with
  | some x => decide (x < c)
  | none => false

/-- close >= vwap, false when vwap is NaN. -/
def geO (c : ℚ) (v : Option ℚ) : Bool :=
  match v with
  | some x => decide (x ≤ c)
  | none => false

/-- close < vwap, false when vwap is NaN. -/
def ltO (c : ℚ) (v : Option ℚ) : Bool :=
  match v with
  | some x => decide (c < x)
  | none => false

/-- close <= vwap, false when vwap is NaN. -/
def leO (c : ℚ) (v : Option ℚ) : Bool :=
  match v with
  | some x => decide (c ≤ x)
  | none => false

/-- The 3-bar BUY window test on rows i-2, i-1, i (a, b, c in that order):
close strictly above vwap on the last bar after two bars at or under it. -/
def buyCond (a b c : VwapRow) : Bool :=
  gtO c.close c.vwap && leO b.close b.vwap && leO a.close a.vwap

/-- The 3-bar SELL window test, the mirror of buyCond. -/
def sellCond (a b c : VwapRow) : Bool :=
  ltO c.close c.vwap && geO b.close b.vwap && geO a.close a.vwap

/-- The forward scan of find_b_signal / find_s_signal: slide a 3-row window
from the earliest rows and return the third row's date of the first match. -/
def scanFirst (cond : VwapRow → VwapRow → VwapRow → Bool) : List VwapRow → Option Nat
  | a :: b :: c :: rest =>
    if cond a b c then some c.date else scanFirst cond (b :: c :: rest)
  | _ => none

/-- The rows of the frame restricted to dates at or before the target
(df[df.index <= current_date]). -/
def vwapUpTo (df : List VwapRow) (d : Nat) : List VwapRow :=
  df.filter (fun r => r.date ≤ d)

/-- find_b_signal: truncate to the target date, give up under 3 rows, then
forward-scan for the first 3-bar BUY window. -/
def find_b_signal (df : List VwapRow) (current_date : Nat) : Option Nat :=
  let data := vwapUpTo df current_date
  if data.length < 3 then none else scanFirst buyCond data

/-- find_s_signal: the SELL mirror of find_b_signal. -/
def find_s_signal (df : List VwapRow) (current_date : Nat) : Option Nat :=
  let data := vwapUpTo df current_date
  if data.length < 3 then none else scanFirst sellCond data

/-- The last n rows of a frame (DataFrame.tail). -/
def lastN (l : List VwapRow) (n : Nat) : List VwapRow :=
  l.drop (l.length - n)

/-- find_two_bar_b_signal: give up under 2 rows, else test the final two
rows for close at-or-under vwap then strictly above. -/
def find_two_bar_b_signal (last_four : List VwapRow) : Option Nat :=
  match lastN last_four 2 with
  | [r0, r1] =>
    if gtO r1.close r1.vwap && leO r0.close r0.vwap then some r1.date else none
  | _ => none

/-- find_two_bar_s_signal: the SELL mirror of find_two_bar_b_signal. -/
def find_two_bar_s_signal (last_four : List VwapRow) : Option Nat :=
  match lastN last_four 2 with
  | [r0, r1] =>
    if ltO r1.close r1.vwap && geO r0.close r0.vwap then some r1.date else none
  | _ => none

/-! ## Zone classifier (iterate_spy_zones, lines 623-670, and
find_zone_for_date, lines 465-479) -/

/-- The tail of the 20-sample EMA column (ewm span=20 adjust=False): each
value is (2/21) * close + (19/21) * previous. -/
def emaColAux (prev : ℚ) : List ℚ → List ℚ
  | [] => []
  | c :: cs =>
    let e := (2 / 21) * c + (19 / 21) * prev
    e :: emaColAux e cs

/-- The 20-sample EMA column: the first value is the first close. -/
def emaCol : List ℚ → List ℚ
  | [] => []
  | c :: cs => c :: emaColAux c cs

/-- The 200-sample rolling mean at row index i of the close column: defined
only once 200 samples exist (rolling(window=200).mean() is NaN before
that); evaluated by the classifier at indices of existing rows. -/
def smaAt (closes : List ℚ) (i : Nat) : Option ℚ :=
  if 199 ≤ i then some ((((closes.drop (i - 199)).take 200).sum) / 200)
  else none

/-- The EMA value at row index i of the close column. -/
def emaAt (closes : List ℚ) (i : Nat) : ℚ :=
  (emaCol closes).getD i 0

/-- The walk of the classification loop over the rows, with the close and
EMA columns computed once up front (as the pandas code adds the sma_200 and
ema_20 columns before iterating). -/
def zoneRowsAux (closes emas : List ℚ) (i : Nat) : List Bar → List (Nat × Option Color)
  | [] => []
  | b :: rest =>
    (b.date, (smaAt closes i).map (fun s =>
      if s < b.close ∧ s < emas.getD i 0 then Color.green else Color.red)) ::
    zoneRowsAux closes emas (i + 1) rest

/-- Per date, the zone classification of the loop body of iterate_spy_zones:
none before the SMA warm-up, else green when close > SMA(200) and
EMA(20) > SMA(200), red otherwise. -/
def zoneRows (bars : List Bar) : List (Nat × Option Color) :=
  zoneRowsAux (bars.map Bar.close) (emaCol (bars.map Bar.close)) 0 bars

/-- The emission loop of iterate_spy_zones: starting from the comparison
color cur (seeded red before any record), skip unclassified dates, insert a
record exactly when the classification differs from cur, and carry the
emitted color forward. -/
def emitZones (cur : Color) : List (Nat × Option Color) → List (Color × Nat)
  | [] => []
  | (_, none) :: rest => emitZones cur rest
  | (d, some c) :: rest =>
    if c = cur then emitZones cur rest else (c, d) :: emitZones c rest

/-- iterate_spy_zones: classify every date of the reference series and emit
the change records, with the comparison color seeded red. -/
def iterate_spy_zones (bars : List Bar) : List (Color × Nat) :=
  emitZones Color.red (zoneRows bars)

/-- The scan of find_zone_for_date: walk the records in ascending date
order, remember the color of each record dated at or before the target, and
stop at the first later record. -/
def fzAux (d : Nat) (lastColor : Option Color) : List (Color × Nat) → Option Color
  | [] => lastColor
  | (c, cd) :: rest => if cd ≤ d then fzAux d (some c) rest else lastColor

/-- find_zone_for_date: red for an empty history, else the last color in
effect at the target date, red when every record is later. -/
def find_zone_for_date (zones : List (Color × Nat)) (target_date : Nat) : Color :=
  match zones with
  | [] => Color.red
  | _ => (fzAux target_date none zones).getD Color.red

/-! ## Instrument state machine (process_stock_data, lines 485-617) -/

/-- First bar of the frame at the given date (current_date_ts in data.index
/ data.at lookups; the replay windows carry unique dates). -/
def barAt (rows : List Bar) (d : Nat) : Option Bar :=
  rows.find? (fun b => b.date = d)

/-- split_factor_today: the split_factor at the current date when the
column exists and the date is in the index, else 1.0. -/
def splitFactorToday (w : StockWindow) (d : Nat) : ℚ :=
  if w.hasSplitFactor then
    match barAt w.rows d with
    | some b => b.split_factor
    | none => 1
  else 1

/-- The stocks-row fetch of lines 533-552: the working all-time high, its
date, the last trade signal read into the local variable, and the possibly
initialized persisted state. -/
structure Fetched where
  ath : ℚ
  athDate : Nat
  lastSig : Option Sig
  st : InstrumentState
deriving DecidableEq, Repr

/-- Read the persisted row; when all_time_high or its date is null, seed
both from the first bar of the window (and persist), with the local last
signal read as null. -/
def fetchState (st : InstrumentState) (r0 : Bar) : Fetched :=
  match st.all_time_high, st.all_time_high_date with
  | some h, some hd => ⟨h, hd, st.last_trade_signal, st⟩
  | _, _ =>
    ⟨r0.close, r0.date, none,
      { st with all_time_high := some r0.close, all_time_high_date := some r0.date }⟩

/-- The is_today branch (lines 560-577): a two-bar test on the tail of the
VWAP frame; a match writes the transient and the persisted signal, a miss
clears the transient signal. -/
def todayStep (st : InstrumentState) (lastSig : Option Sig) (vwap : List VwapRow) :
    InstrumentState :=
  if lastSig = some Sig.BUY then
    match find_two_bar_s_signal (lastN vwap 4) with
    | some _ => { st with trade_signal := some Sig.SELL, last_trade_signal := some Sig.SELL }
    | none => { st with trade_signal := none }
  else
    match find_two_bar_b_signal (lastN vwap 4) with
    | some _ => { st with trade_signal := some Sig.BUY, last_trade_signal := some Sig.BUY }
    | none => { st with trade_signal := none }

/-- Lines 579-587: with the fetch-time last signal not BUY, a 3-bar BUY
match is accepted only when it lands exactly on the current date. -/
def acceptedB (lastSig : Option Sig) (vwap : List VwapRow) (d : Nat) : Option Nat :=
  if lastSig ≠ some Sig.BUY then
    match find_b_signal vwap d with
    | some bd => if bd = d then some bd else none
    | none => none
  else none

/-- Lines 588-594: with the fetch-time last signal BUY, a 3-bar SELL match
landing exactly on the current date confirms SELL. -/
def sellPhase (st2 : InstrumentState) (lastSig : Option Sig) (vwap : List VwapRow)
    (d : Nat) : InstrumentState :=
  if lastSig = some Sig.BUY then
    match find_s_signal vwap d with
    | some sd => if sd = d then { st2 with last_trade_signal := some Sig.SELL } else st2
    | none => st2
  else st2

/-- Lines 595-605: on an accepted BUY whose date is in the bar index,
re-anchor the all-time high to that date's close (Python line 598 skips a
zero close: Decimal(0) is falsy).  The VWAP recomputation of line 605 is
dead: nothing after it reads vwap_data again. -/
def reanchorPhase (st3 : InstrumentState) (bRes : Option Nat) (rows : List Bar) :
    InstrumentState :=
  match bRes with
  | some bd =>
    match barAt rows bd with
    | some bb =>
      if bb.close ≠ 0 then
        { st3 with all_time_high := some bb.close, all_time_high_date := some bd }
      else st3
    | none => st3
  | none => st3

/-- idxmax over the close column of a non-empty frame: the date of the
first bar attaining the maximum close. -/
def idxmaxClose (nb : Bar) (nbs : List Bar) : Nat :=
  match (nb :: nbs).find?
      (fun b => b.close = nbs.foldl (fun acc b => max acc b.close) nb.close) with
  | some b => b.date
  | none => nb.date

/-- Lines 606-612: with the fetch-time last signal BUY, scan the bars after
the anchor date for a strictly larger maximum close (idxmax returns the
first maximizer). -/
def newHighPhase (st4 : InstrumentState) (lastSig : Option Sig) (ath : ℚ)
    (athDate : Nat) (rows : List Bar) : InstrumentState :=
  if lastSig = some Sig.BUY then
    match rows.filter (fun b => athDate < b.date) with
    | [] => st4
    | nb :: nbs =>
      if ath < nbs.foldl (fun acc b => max acc b.close) nb.close then
        { st4 with
          all_time_high := some (nbs.foldl (fun acc b => max acc b.close) nb.close),
          all_time_high_date := some (idxmaxClose nb nbs) }
      else st4
  else st4

/-- The historical branch (lines 578-612), as the composition of the four
phases above.  The local last-signal variable is not refreshed between the
blocks, so every phase is driven by the value read at fetch time. -/
def histStep (st1 : InstrumentState) (lastSig : Option Sig) (ath : ℚ) (athDate : Nat)
    (vwap : List VwapRow) (rows : List Bar) (d : Nat) : InstrumentState :=
  let bRes := acceptedB lastSig vwap d
  let st2 := match bRes with
    | some _ => { st1 with last_trade_signal := some Sig.BUY }
    | none => st1
  let st3 := sellPhase st2 lastSig vwap d
  let st4 := reanchorPhase st3 bRes rows
  newHighPhase st4 lastSig ath athDate rows

/-- process_stock_data for one instrument and one date: validation gate,
split override, state fetch, anchored VWAP, then the today or historical
branch.  The market_zone argument is logged only. -/
def process_stock_data (st : InstrumentState) (w : StockWindow) (current_date : Nat)
    (market_zone : Color) (is_today : Bool) : InstrumentState :=
  match w.rows with
  | [] => st
  | r0 :: _ =>
    if !w.isDatetimeIndex then st
    else if !w.hasClose then st
    else if w.rows.length < 4 then st
    else if splitFactorToday w current_date ≠ 1 then
      match barAt w.rows current_date with
      | some b =>
        { st with all_time_high := some b.close, all_time_high_date := some current_date,
                  last_trade_signal := some Sig.BUY }
      | none => st
    else
      let f := fetchState st r0
      let vwap := calculate_anchored_vwap w.rows f.athDate
      if vwap.isEmpty then f.st
      else if is_today then todayStep f.st f.lastSig vwap
      else histStep f.st f.lastSig f.ath f.athDate vwap w.rows current_date

/-- A 3-bar BUY confirmation at this step: stated over the same fetched
anchor and VWAP frame the step itself uses.  Non-today dates need the
historical match to land exactly on the current date; today uses the
two-bar test. -/
def buyConfirmedAt (st : InstrumentState) (w : StockWindow) (d : Nat) (is_today : Bool) :
    Prop :=
  match w.rows with
  | [] => False
  | r0 :: _ =>
    let f := fetchState st r0
    let vwap := calculate_anchored_vwap w.rows f.athDate
    f.lastSig ≠ some Sig.BUY ∧
      (if is_today then (find_two_bar_b_signal (lastN vwap 4)).isSome = true
       else find_b_signal vwap d = some d)

/-- A SELL confirmation at this step, the mirror of buyConfirmedAt. -/
def sellConfirmedAt (st : InstrumentState) (w : StockWindow) (d : Nat) (is_today : Bool) :
    Prop :=
  match w.rows with
  | [] => False
  | r0 :: _ =>
    let f := fetchState st r0
    let vwap := calculate_anchored_vwap w.rows f.athDate
    f.lastSig = some Sig.BUY ∧
      (if is_today then (find_two_bar_s_signal (lastN vwap 4)).isSome = true
       else find_s_signal vwap d = some d)

/-! ## Replay orchestrator (iterate_stocks_individually, lines 676-717) -/

/-- The per-date loop over one instrument: each date gets the window of all
bars up to and including it, the zone color in effect, and the today flag
on the final date; the state written by one date feeds the next.  The
output lists the persisted state after each processed date. -/
def replayAux (bars : List Bar) (zones : List (Color × Nat)) :
    InstrumentState → List Nat → List InstrumentState
  | _, [] => []
  | st, d :: ds =>
    let isToday := ds = []
    let w : StockWindow := ⟨bars.filter (fun b => b.date ≤ d), true, true, true⟩
    let z := find_zone_for_date zones d
    let st' := process_stock_data st w d z isToday
    st' :: replayAux bars zones st' ds

/-- Replay one instrument: sort the bars by date, walk the unique dates in
ascending order, and record the persisted state after every date. -/
def replayTrace (bars0 : List Bar) (zones : List (Color × Nat))
    (st0 : InstrumentState) : List InstrumentState :=
  let bars := List.insertionSort (fun a b => a.date ≤ b.date) bars0
  replayAux bars zones st0 (bars.map Bar.date).dedup

/-! ## Characterization of the forward scan (claim C3) -/

/-- The 3-bar window test read off at offset k of a row list: rows k, k+1
and k+2 play the claim's i-2, i-1 and i (so i = k+2 ranges over indices at
least 2). -/
def winCondAt (cond : VwapRow → VwapRow → VwapRow → Bool) (l : List VwapRow) (k : Nat) :
    Bool :=
  match l[k]?, l[k + 1]?, l[k + 2]? with
  | some a, some b, some c => cond a b c
  | _, _, _ => false

theorem consElemAddTwo (x : VwapRow) (l : List VwapRow) (k : Nat) :
    (x :: l)[k + 1 + 2]? = l[k + 2]? := by
  rw [show k + 1 + 2 = k + 2 + 1 from by omega]
  exact List.getElem?_cons_succ

theorem winCondAt_cons (cond : VwapRow → VwapRow → VwapRow → Bool) (x : VwapRow)
    (l : List VwapRow) (k : Nat) :
    winCondAt cond (x :: l) (k + 1) = winCondAt cond l k := by
  have e1 : (x :: l)[k + 1]? = l[k]? := List.getElem?_cons_succ
  have e2 : (x :: l)[k + 1 + 1]? = l[k + 1]? := List.getElem?_cons_succ
  have e3 := consElemAddTwo x l k
  unfold winCondAt
  rw [e1, e2, e3]

theorem winCondAt_zero (cond : VwapRow → VwapRow → VwapRow → Bool) (a b c : VwapRow)
    (rest : List VwapRow) :
    winCondAt cond (a :: b :: c :: rest) 0 = cond a b c := by
  simp [winCondAt]

theorem winCondAt_short (cond : VwapRow → VwapRow → VwapRow → Bool) (l : List VwapRow)
    (k : Nat) (h : l.length ≤ k + 2) : winCondAt cond l k = false := by
  have h3 : l[k + 2]? = none := List.getElem?_eq_none h
  cases hx : l[k]? <;> cases hy : l[k + 1]? <;>
    simp [winCondAt, hx, hy, h3]

theorem scanFirst_eq_some_iff (cond : VwapRow → VwapRow → VwapRow → Bool) :
    ∀ (l : List VwapRow) (t : Nat),
      scanFirst cond l = some t ↔
        ∃ k, winCondAt cond l k = true ∧ (∀ j, j < k → winCondAt cond l j = false) ∧
          ∃ c, l[k + 2]? = some c ∧ c.date = t := by
  intro l
  induction l with
  | nil => intro t; simp [scanFirst, winCondAt]
  | cons a l ih =>
    rcases l with - | ⟨b, l2⟩
    · intro t
      constructor
      · intro h; simp [scanFirst] at h
      · rintro ⟨k, -, -, c, hc, -⟩
        have : ([a] : List VwapRow)[k + 2]? = none := List.getElem?_eq_none (by simp)
        simp [this] at hc
    · rcases l2 with - | ⟨c, rest⟩
      · intro t
        constructor
        · intro h; simp [scanFirst] at h
        · rintro ⟨k, -, -, d, hd, -⟩
          have : ([a, b] : List VwapRow)[k + 2]? = none :=
            List.getElem?_eq_none (by simp)
          simp [this] at hd
      · intro t
        by_cases h : cond a b c
        · constructor
          · intro hs
            simp only [scanFirst, h, if_true] at hs
            refine ⟨0, by simpa [winCondAt_zero] using h, by omega, c, by simp, ?_⟩
            simpa using hs
          · rintro ⟨k, hw, hmin, d, hd, hdt⟩
            rcases k with - | k
            · have hdc : c = d := by simpa using hd
              cases hdc
              simp only [scanFirst, h, if_true]
              simp [hdt]
            · have h0 := hmin 0 (Nat.succ_pos k)
              rw [winCondAt_zero] at h0
              exact absurd h0 (by simp [h])
        · have hstep : scanFirst cond (a :: b :: c :: rest) = scanFirst cond (b :: c :: rest) := by
            simp [scanFirst, h]
          rw [hstep, ih t]
          constructor
          · rintro ⟨k, hw, hmin, d, hd, hdt⟩
            refine ⟨k + 1, by rwa [winCondAt_cons], ?_, d, ?_, hdt⟩
            · intro j hj
              rcases j with - | j
              · simp [winCondAt_zero, h]
              · rw [winCondAt_cons]
                exact hmin j (by omega)
            · rw [consElemAddTwo]
              exact hd
          · rintro ⟨k, hw, hmin, d, hd, hdt⟩
            rcases k with - | k
            · rw [winCondAt_zero] at hw
              exact absurd hw (by simp [h])
            · rw [winCondAt_cons] at hw
              rw [consElemAddTwo] at hd
              refine ⟨k, hw, ?_, d, hd, hdt⟩
              intro j hj
              have := hmin (j + 1) (by omega)
              rwa [winCondAt_cons] at this

theorem scanFirst_eq_none_iff (cond : VwapRow → VwapRow → VwapRow → Bool) :
    ∀ l : List VwapRow,
      scanFirst cond l = none ↔ ∀ k, winCondAt cond l k = false := by
  intro l
  induction l with
  | nil =>
    exact iff_of_true rfl (fun k => winCondAt_short cond [] k (by simp))
  | cons a l ih =>
    rcases l with - | ⟨b, l2⟩
    · exact iff_of_true rfl (fun k => winCondAt_short cond [a] k (by simp))
    · rcases l2 with - | ⟨c, rest⟩
      · exact iff_of_true rfl (fun k => winCondAt_short cond [a, b] k (by simp))
      · by_cases h : cond a b c
        · refine iff_of_false (by simp [scanFirst, h]) ?_
          intro hall
          have := hall 0
          rw [winCondAt_zero] at this
          exact absurd this (by simp [h])
        · have hstep : scanFirst cond (a :: b :: c :: rest) = scanFirst cond (b :: c :: rest) := by
            simp [scanFirst, h]
          rw [hstep, ih]
          constructor
          · intro hall k
            rcases k with - | k
            · simp [winCondAt_zero, h]
            · rw [winCondAt_cons]
              exact hall k
          · intro hall k
            have := hall (k + 1)
            rwa [winCondAt_cons] at this

theorem scanGate_some_iff (cond : VwapRow → VwapRow → VwapRow → Bool) (l : List VwapRow)
    (t : Nat) :
    (if l.length < 3 then none else scanFirst cond l) = some t ↔
      ∃ k, winCondAt cond l k = true ∧ (∀ j, j < k → winCondAt cond l j = false) ∧
        ∃ c, l[k + 2]? = some c ∧ c.date = t := by
  by_cases hl : l.length < 3
  · simp only [hl, if_true]
    constructor
    · intro h; exact absurd h (by simp)
    · rintro ⟨k, hw, -, -⟩
      rw [winCondAt_short cond l k (by omega)] at hw
      exact absurd hw (by simp)
  · simp only [hl, if_false]
    exact scanFirst_eq_some_iff cond l t

theorem scanGate_none_iff (cond : VwapRow → VwapRow → VwapRow → Bool) (l : List VwapRow) :
    (if l.length < 3 then none else scanFirst cond l) = none ↔
      ∀ k, winCondAt cond l k = false := by
  by_cases hl : l.length < 3
  · rw [if_pos hl]
    exact iff_of_true rfl (fun k => winCondAt_short cond l k (by omega))
  · rw [if_neg hl]
    exact scanFirst_eq_none_iff cond l

/-- C3: find_b_signal restricts the rows to dates at or before the target
date and returns the date of the earliest forward-scan window k, k+1, k+2
(the claim's i-2, i-1, i with i = k+2 at least 2) whose last row closes
strictly above its vwap after two rows at or under theirs; it returns none
exactly when no window matches, in particular whenever fewer than 3 rows
remain; find_s_signal is the exact mirror.  On rows with defined vwap
values the window tests are the claim's close/vwap comparisons. -/
theorem c3_find_signals_first_match (df : List VwapRow) (d : Nat) :
    (∀ t, find_b_signal df d = some t ↔
      ∃ k, winCondAt buyCond (vwapUpTo df d) k = true ∧
        (∀ j, j < k → winCondAt buyCond (vwapUpTo df d) j = false) ∧
        ∃ c, (vwapUpTo df d)[k + 2]? = some c ∧ c.date = t) ∧
    (find_b_signal df d = none ↔ ∀ k, winCondAt buyCond (vwapUpTo df d) k = false) ∧
    (∀ t, find_s_signal df d = some t ↔
      ∃ k, winCondAt sellCond (vwapUpTo df d) k = true ∧
        (∀ j, j < k → winCondAt sellCond (vwapUpTo df d) j = false) ∧
        ∃ c, (vwapUpTo df d)[k + 2]? = some c ∧ c.date = t) ∧
    (find_s_signal df d = none ↔ ∀ k, winCondAt sellCond (vwapUpTo df d) k = false) ∧
    ((vwapUpTo df d).length < 3 → find_b_signal df d = none ∧ find_s_signal df d = none) ∧
    (∀ a b c : VwapRow, ∀ va vb vc : ℚ,
      a.vwap = some va → b.vwap = some vb → c.vwap = some vc →
      ((buyCond a b c = true ↔ vc < c.close ∧ b.close ≤ vb ∧ a.close ≤ va) ∧
       (sellCond a b c = true ↔ c.close < vc ∧ vb ≤ b.close ∧ va ≤ a.close))) := by
  refine ⟨fun t => scanGate_some_iff buyCond (vwapUpTo df d) t,
    scanGate_none_iff buyCond (vwapUpTo df d),
    fun t => scanGate_some_iff sellCond (vwapUpTo df d) t,
    scanGate_none_iff sellCond (vwapUpTo df d), ?_, ?_⟩
  · intro hl
    constructor
    · show (if (vwapUpTo df d).length < 3 then none else scanFirst buyCond (vwapUpTo df d)) = none
      simp [hl]
    · show (if (vwapUpTo df d).length < 3 then none else scanFirst sellCond (vwapUpTo df d)) = none
      simp [hl]
  · intro a b c va vb vc ha hb hc
    constructor
    · simp [buyCond, gtO, leO, ha, hb, hc, and_assoc]
    · simp [sellCond, ltO, geO, ha, hb, hc, and_assoc]

/-! ## Branch lemmas for process_stock_data -/

theorem process_invalid (st : InstrumentState) (w : StockWindow) (d : Nat) (z : Color)
    (t : Bool)
    (h : w.rows = [] ∨ w.isDatetimeIndex = false ∨ w.hasClose = false ∨ w.rows.length < 4) :
    process_stock_data st w d z t = st := by
  rcases hr : w.rows with - | ⟨r0, rest⟩
  · simp [process_stock_data, hr]
  · rcases h with h | h | h | h
    · rw [hr] at h; simp at h
    · simp [process_stock_data, hr, h]
    · simp [process_stock_data, hr, h]
    · rw [hr, List.length_cons] at h
      simp [process_stock_data, hr]
      intro _ _ hlen
      exfalso
      omega

theorem process_split (st : InstrumentState) (w : StockWindow) (d : Nat) (z : Color)
    (t : Bool) (b : Bar)
    (hdt : w.isDatetimeIndex = true) (hcl : w.hasClose = true)
    (hlen : 4 ≤ w.rows.length) (hb : barAt w.rows d = some b) (hsf : w.hasSplitFactor = true)
    (hs : b.split_factor ≠ 1) :
    process_stock_data st w d z t =
      { st with all_time_high := some b.close, all_time_high_date := some d,
                last_trade_signal := some Sig.BUY } := by
  have hsft : splitFactorToday w d = b.split_factor := by
    simp [splitFactorToday, hsf, hb]
  rcases hr : w.rows with - | ⟨r0, rest⟩
  · rw [hr] at hlen; simp at hlen
  · rw [hr] at hlen hb
    simp [process_stock_data, hr, hdt, hcl, hb, hsft, hs]
    intro hlen'
    exfalso
    rw [List.length_cons] at hlen
    omega

theorem process_nonsplit (st : InstrumentState) (w : StockWindow) (d : Nat) (z : Color)
    (t : Bool) (r0 : Bar) (rest : List Bar)
    (hr : w.rows = r0 :: rest)
    (hdt : w.isDatetimeIndex = true) (hcl : w.hasClose = true)
    (hlen : 4 ≤ w.rows.length) (hsft : splitFactorToday w d = 1) :
    process_stock_data st w d z t =
      (if calculate_anchored_vwap w.rows (fetchState st r0).athDate = [] then (fetchState st r0).st
       else if t then
         todayStep (fetchState st r0).st (fetchState st r0).lastSig
           (calculate_anchored_vwap w.rows (fetchState st r0).athDate)
       else
         histStep (fetchState st r0).st (fetchState st r0).lastSig (fetchState st r0).ath
           (fetchState st r0).athDate (calculate_anchored_vwap w.rows (fetchState st r0).athDate)
           w.rows d) := by
  rw [hr] at hlen
  simp [process_stock_data, hr, hdt, hcl, hsft]
  intro hlen'
  exfalso
  rw [List.length_cons] at hlen
  omega

/-- The today branch only writes the two signal fields. -/
theorem todayStep_ath (st : InstrumentState) (l : Option Sig) (v : List VwapRow) :
    (todayStep st l v).all_time_high = st.all_time_high ∧
    (todayStep st l v).all_time_high_date = st.all_time_high_date := by
  unfold todayStep
  by_cases h : l = some Sig.BUY <;>
    simp only [h, if_true, if_false, ite_true, ite_false] <;>
    [cases find_two_bar_s_signal (lastN v 4); cases find_two_bar_b_signal (lastN v 4)] <;>
    simp

/-- fetchState leaves the signal fields alone and only seeds the highs. -/
theorem fetchState_st (st : InstrumentState) (r0 : Bar) :
    ((fetchState st r0).st.trade_signal = st.trade_signal ∧
     (fetchState st r0).st.last_trade_signal = st.last_trade_signal) ∧
    ((fetchState st r0).st.all_time_high = some (fetchState st r0).ath ∧
     (fetchState st r0).st.all_time_high_date = some (fetchState st r0).athDate) := by
  unfold fetchState
  cases h1 : st.all_time_high <;> cases h2 : st.all_time_high_date <;> simp [h1, h2]

/-- With both persisted high fields set, the fetch reads them directly. -/
theorem fetchState_of_some (st : InstrumentState) (r0 : Bar) (h : ℚ) (hd : Nat)
    (h1 : st.all_time_high = some h) (h2 : st.all_time_high_date = some hd) :
    fetchState st r0 = ⟨h, hd, st.last_trade_signal, st⟩ := by
  unfold fetchState
  rw [h1, h2]

/-! ## Claim C5: rows of calculate_anchored_vwap -/

theorem cavAux_map_date (cpv cv : ℚ) :
    ∀ l : List Bar, (cavAux cpv cv l).map VwapRow.date = l.map Bar.date := by
  intro l
  induction l generalizing cpv cv with
  | nil => simp [cavAux]
  | cons b rest ih => simp [cavAux, ih]

theorem cavAux_map_close (cpv cv : ℚ) :
    ∀ l : List Bar, (cavAux cpv cv l).map VwapRow.close = l.map Bar.close := by
  intro l
  induction l generalizing cpv cv with
  | nil => simp [cavAux]
  | cons b rest ih => simp [cavAux, ih]

theorem cavAux_vwap_none (l : List Bar) :
    ∀ (cpv cv : ℚ) (i : Nat) (r : VwapRow), (cavAux cpv cv l)[i]? = some r →
      (r.vwap = none ↔ cv + ((l.take (i + 1)).map Bar.volume).sum = 0) := by
  induction l with
  | nil => intro cpv cv i r h; simp [cavAux] at h
  | cons b rest ih =>
    intro cpv cv i r h
    rcases i with - | i
    · simp only [cavAux, List.getElem?_cons_zero, Option.some.injEq] at h
      subst h
      by_cases hz : cv + b.volume = 0 <;>
        simp [hz, add_assoc]
    · simp only [cavAux, List.getElem?_cons_succ] at h
      have := ih _ _ i r h
      rw [this]
      simp [add_assoc]

/-- C5 as amended: calculate_anchored_vwap keeps every bar dated at or
after the anchor (same dates, same closes, in order); a row's vwap is
undefined (NaN, modelled none) exactly when the cumulative volume up to it
is zero, and such rows are not excluded. -/
theorem c5_vwap_rows_kept (data : List Bar) (anchor : Nat) :
    (calculate_anchored_vwap data anchor).map VwapRow.date =
      (data.filter (fun b => anchor ≤ b.date)).map Bar.date ∧
    (calculate_anchored_vwap data anchor).map VwapRow.close =
      (data.filter (fun b => anchor ≤ b.date)).map Bar.close ∧
    ∀ (i : Nat) (r : VwapRow), (calculate_anchored_vwap data anchor)[i]? = some r →
      (r.vwap = none ↔
        (((data.filter (fun b => anchor ≤ b.date)).take (i + 1)).map Bar.volume).sum = 0) := by
  refine ⟨cavAux_map_date 0 0 _, cavAux_map_close 0 0 _, ?_⟩
  intro i r h
  have := cavAux_vwap_none (data.filter (fun b => anchor ≤ b.date)) 0 0 i r h
  rwa [zero_add] at this

/-- A single anchored bar with zero volume. -/
def c5Bars : List Bar := [mkBar 0 10 0 1]

/-- C5 counterexample: the zero-cumulative-volume row is returned (with an
undefined vwap), not excluded, so not every returned row has a defined
vwap value. -/
theorem c5_counterexample :
    calculate_anchored_vwap c5Bars 0 = [⟨0, 10, none⟩] ∧
    ¬ (∀ r ∈ calculate_anchored_vwap c5Bars 0, r.vwap.isSome = true) := by
  have h : calculate_anchored_vwap c5Bars 0 = [⟨0, 10, none⟩] := by
    norm_num [calculate_anchored_vwap, cavAux, c5Bars, mkBar, List.filter]
  refine ⟨h, ?_⟩
  rw [h]
  intro hall
  have := hall ⟨0, 10, none⟩ (by simp)
  simp at this

/-! ## Claim C7: the market_zone argument never influences the outcome -/

/-- C7: two calls to process_stock_data that differ only in the market_zone
argument perform exactly the same state updates: the zone color is never
branched on. -/
theorem c7_market_zone_no_influence (st : InstrumentState) (w : StockWindow) (d : Nat)
    (t : Bool) (z1 z2 : Color) :
    process_stock_data st w d z1 t = process_stock_data st w d z2 t := rfl

/-! ## Claim C6: the split override -/

/-- C6: when the current date's bar carries a split factor other than 1 (and
the window passes the data-validation gate), the call unconditionally sets
all_time_high to that bar's close, all_time_high_date to the current date
and last_trade_signal to BUY, leaves trade_signal alone, and performs no
other transition -- for every prior state, AWAITING_BUY or AWAITING_SELL
alike, and on historical dates and today alike. -/
theorem c6_split_override (st : InstrumentState) (w : StockWindow) (d : Nat) (z : Color)
    (t : Bool) (b : Bar)
    (hdt : w.isDatetimeIndex = true) (hcl : w.hasClose = true)
    (hlen : 4 ≤ w.rows.length) (hsf : w.hasSplitFactor = true)
    (hb : barAt w.rows d = some b) (hs : b.split_factor ≠ 1) :
    process_stock_data st w d z t =
      { all_time_high := some b.close, all_time_high_date := some d,
        trade_signal := st.trade_signal, last_trade_signal := some Sig.BUY } := by
  rw [process_split st w d z t b hdt hcl hlen hb hsf hs]

/-- A 4-bar window whose current date carries split factor 2. -/
def c6W : StockWindow :=
  ⟨[mkBar 0 5 1 1, mkBar 1 6 1 1, mkBar 2 7 1 1, mkBar 3 8 1 2], true, true, true⟩

/-- A prior state in AWAITING_SELL (last signal BUY would be AWAITING_SELL;
here last signal SELL, i.e. AWAITING_BUY -- the theorem covers both). -/
def c6St : InstrumentState := ⟨some 9, some 0, none, some Sig.SELL⟩

theorem c6_split_override_witness :
    process_stock_data c6St c6W 3 Color.red false =
      { all_time_high := some 8, all_time_high_date := some 3,
        trade_signal := none, last_trade_signal := some Sig.BUY } :=
  c6_split_override c6St c6W 3 Color.red false (mkBar 3 8 1 2) rfl rfl
    (by norm_num [c6W]) rfl (by norm_num [barAt, c6W, mkBar, List.find?])
    (by norm_num [mkBar])

/-! ## Claim C8: the data-validation gate -/

/-- C8 as amended: an empty window, a window whose index is not a datetime
index, a missing close column, or fewer than 4 bars each abort the call
with no state update.  (Chronological order of the index is never checked:
see the counterexample.) -/
theorem c8_validation_aborts (st : InstrumentState) (w : StockWindow) (d : Nat)
    (z : Color) (t : Bool)
    (h : w.rows = [] ∨ w.isDatetimeIndex = false ∨ w.hasClose = false ∨
      w.rows.length < 4) :
    process_stock_data st w d z t = st :=
  process_invalid st w d z t h

/-- The empty persisted row (no prior state). -/
def stEmpty : InstrumentState := ⟨none, none, none, none⟩

/-- A 4-bar window whose datetime index is out of chronological order. -/
def c8W : StockWindow :=
  ⟨[mkBar 3 5 1 1, mkBar 1 6 1 1, mkBar 2 7 1 1, mkBar 0 8 1 1], true, true, true⟩

/-- C8 counterexample: a non-chronological window is not aborted -- the
call runs and updates the persisted state (here it seeds the all-time high
from the first listed bar), refuting the claim that a non-chronological
index aborts processing with no state update. -/
theorem c8_counterexample :
    c8W.rows.map Bar.date = [3, 1, 2, 0] ∧
    ¬ List.Chain' (· ≤ ·) (c8W.rows.map Bar.date) ∧
    process_stock_data stEmpty c8W 3 Color.red false ≠ stEmpty ∧
    (process_stock_data stEmpty c8W 3 Color.red false).all_time_high = some 5 := by
  refine ⟨by norm_num [c8W, mkBar], by norm_num [c8W, mkBar, List.chain'_cons], ?_⟩
  have h : process_stock_data stEmpty c8W 3 Color.red false =
      ⟨some 5, some 3, none, none⟩ := by
    norm_num +decide [process_stock_data, splitFactorToday, barAt, fetchState,
      calculate_anchored_vwap, cavAux, todayStep, histStep, find_b_signal, find_s_signal,
      vwapUpTo, scanFirst, buyCond, sellCond, gtO, geO, ltO, leO, lastN,
      find_two_bar_b_signal, find_two_bar_s_signal, mkBar, c8W, stEmpty,
      List.filter, List.find?]
  rw [h]
  exact ⟨by simp [stEmpty], rfl⟩

theorem c8_validation_aborts_witness :
    process_stock_data c6St ⟨[mkBar 0 1 1 1], true, true, true⟩ 0 Color.red false = c6St :=
  c8_validation_aborts c6St ⟨[mkBar 0 1 1 1], true, true, true⟩ 0 Color.red false
    (Or.inr (Or.inr (Or.inr (by norm_num))))

/-! ## Claim C9: today's frame effect on the high fields -/

/-- C9: with is_today set, an existing persisted high (both fields
non-null) and no split on the current date, the call leaves all_time_high
and all_time_high_date untouched: only the signal fields can be written. -/
theorem c9_today_preserves_high (st : InstrumentState) (w : StockWindow) (d : Nat)
    (z : Color) (h : ℚ) (hd : Nat)
    (h1 : st.all_time_high = some h) (h2 : st.all_time_high_date = some hd)
    (hsft : splitFactorToday w d = 1) :
    (process_stock_data st w d z true).all_time_high = some h ∧
    (process_stock_data st w d z true).all_time_high_date = some hd := by
  rcases hr : w.rows with - | ⟨r0, rest⟩
  · rw [process_invalid st w d z true (Or.inl hr)]
    exact ⟨h1, h2⟩
  · by_cases hdt : w.isDatetimeIndex = true
    · by_cases hcl : w.hasClose = true
      · by_cases hlen : w.rows.length < 4
        · rw [process_invalid st w d z true (Or.inr (Or.inr (Or.inr hlen)))]
          exact ⟨h1, h2⟩
        · rw [process_nonsplit st w d z true r0 rest hr hdt hcl (by omega) hsft,
            fetchState_of_some st r0 h hd h1 h2]
          by_cases hv : calculate_anchored_vwap w.rows
              ((⟨h, hd, st.last_trade_signal, st⟩ : Fetched).athDate) = []
          · rw [if_pos hv]
            exact ⟨h1, h2⟩
          · rw [if_neg hv, if_pos rfl]
            have := todayStep_ath ((⟨h, hd, st.last_trade_signal, st⟩ : Fetched).st)
              ((⟨h, hd, st.last_trade_signal, st⟩ : Fetched).lastSig)
              (calculate_anchored_vwap w.rows
                ((⟨h, hd, st.last_trade_signal, st⟩ : Fetched).athDate))
            rw [this.1, this.2]
            exact ⟨h1, h2⟩
      · have : w.hasClose = false := by revert hcl; cases w.hasClose <;> simp
        rw [process_invalid st w d z true (Or.inr (Or.inr (Or.inl this)))]
        exact ⟨h1, h2⟩
    · have : w.isDatetimeIndex = false := by revert hdt; cases w.isDatetimeIndex <;> simp
      rw [process_invalid st w d z true (Or.inr (Or.inl this))]
      exact ⟨h1, h2⟩

theorem c9_today_preserves_high_witness :
    (process_stock_data c6St c8W 3 Color.green true).all_time_high = some 9 ∧
    (process_stock_data c6St c8W 3 Color.green true).all_time_high_date = some 0 :=
  c9_today_preserves_high c6St c8W 3 Color.green 9 0 rfl rfl
    (by norm_num [splitFactorToday, barAt, c8W, mkBar, List.find?])

/-! ## Claims C4 and C10: the zone classifier -/

theorem emitZones_head_ne (l : List (Nat × Option Color)) :
    ∀ (cur : Color) (hd : Color × Nat) (tl : List (Color × Nat)),
      emitZones cur l = hd :: tl → hd.1 ≠ cur := by
  induction l with
  | nil => intro cur hd tl h; simp [emitZones] at h
  | cons e rest ih =>
    intro cur hd tl h
    rcases e with ⟨d, - | c⟩
    · exact ih cur hd tl h
    · by_cases hc : c = cur
      · rw [emitZones, if_pos hc] at h
        exact ih cur hd tl h
      · rw [emitZones, if_neg hc] at h
        cases h
        exact hc

theorem emitZones_chain' (l : List (Nat × Option Color)) :
    ∀ cur : Color, List.Chain' (fun p q : Color × Nat => p.1 ≠ q.1) (emitZones cur l) := by
  induction l with
  | nil => intro cur; simp [emitZones]
  | cons e rest ih =>
    intro cur
    rcases e with ⟨d, - | c⟩
    · exact ih cur
    · by_cases hc : c = cur
      · rw [emitZones, if_pos hc]
        exact ih cur
      · rw [emitZones, if_neg hc]
        rw [List.chain'_cons']
        refine ⟨?_, ih c⟩
        intro q hq
        rcases hr : emitZones c rest with - | ⟨q0, qs⟩
        · rw [hr] at hq; simp at hq
        · rw [hr] at hq
          simp at hq
          subst hq
          exact fun hcq => emitZones_head_ne rest c q0 qs hr hcq.symm

theorem emitZones_mem (l : List (Nat × Option Color)) :
    ∀ (cur : Color) (p : Color × Nat), p ∈ emitZones cur l → (p.2, some p.1) ∈ l := by
  induction l with
  | nil => intro cur p h; simp [emitZones] at h
  | cons e rest ih =>
    intro cur p h
    rcases e with ⟨d, - | c⟩
    · exact List.mem_cons_of_mem _ (ih cur p h)
    · by_cases hc : c = cur
      · rw [emitZones, if_pos hc] at h
        exact List.mem_cons_of_mem _ (ih cur p h)
      · rw [emitZones, if_neg hc] at h
        rcases List.mem_cons.mp h with h | h
        · subst h; simp
        · exact List.mem_cons_of_mem _ (ih c p h)

theorem emitZones_skip_none (d : Nat) :
    ∀ (k : Nat) (cur : Color) (l : List (Nat × Option Color)),
      emitZones cur (List.replicate k (d, none) ++ l) = emitZones cur l := by
  intro k
  induction k with
  | zero => intro cur l; simp
  | succ k ih =>
    intro cur l
    rw [List.replicate_succ, List.cons_append, emitZones]
    exact ih cur l

/-- C10: every non-empty zone history produced by iterate_spy_zones begins
with a green record: the loop's comparison color is seeded red before any
record is emitted, so the first inserted record's color differs from red. -/
theorem c10_first_zone_green (bars : List Bar) (hd : Color × Nat)
    (tl : List (Color × Nat)) (h : iterate_spy_zones bars = hd :: tl) :
    hd.1 = Color.green := by
  have hne := emitZones_head_ne (zoneRows bars) Color.red hd tl h
  cases hh : hd.1
  · rfl
  · exact absurd hh hne

/-- Constant reference series: 200 bars closing at 1 (every classified date
is red). -/
def c4Bars : List Bar := List.replicate 200 (mkBar 0 1 1 1)

/-- Reference series with 199 bars closing at 1 and a final bar closing at
22 (the final date classifies green). -/
def c10Bars : List Bar := List.replicate 199 (mkBar 0 1 1 1) ++ [mkBar 199 22 1 1]

theorem zoneRowsAux_nil (closes emas : List ℚ) (i : Nat) :
    zoneRowsAux closes emas i [] = [] := rfl

theorem zoneRowsAux_cons (closes emas : List ℚ) (i : Nat) (b : Bar) (rest : List Bar) :
    zoneRowsAux closes emas i (b :: rest) =
      (b.date, (smaAt closes i).map (fun s =>
        if s < b.close ∧ s < emas.getD i 0 then Color.green else Color.red)) ::
      zoneRowsAux closes emas (i + 1) rest := rfl

theorem emitZones_nil (cur : Color) : emitZones cur [] = [] := rfl

theorem emitZones_cons_some (cur : Color) (d : Nat) (c : Color)
    (rest : List (Nat × Option Color)) :
    emitZones cur ((d, some c) :: rest) =
      if c = cur then emitZones cur rest else (c, d) :: emitZones c rest := rfl

theorem emaColAux_const : ∀ k : Nat, emaColAux 1 (List.replicate k 1) = List.replicate k 1 := by
  intro k
  induction k with
  | zero => simp [emaColAux]
  | succ k ih =>
    rw [List.replicate_succ, emaColAux]
    have he : (2 / 21 : ℚ) * 1 + (19 / 21) * 1 = 1 := by norm_num
    rw [he, ih, ← List.replicate_succ]

theorem emaColAux_c10 : ∀ k : Nat,
    emaColAux 1 (List.replicate k 1 ++ [22]) = List.replicate k 1 ++ [3] := by
  intro k
  induction k with
  | zero =>
    simp [emaColAux]
    norm_num
  | succ k ih =>
    rw [List.replicate_succ, List.cons_append, emaColAux]
    have he : (2 / 21 : ℚ) * 1 + (19 / 21) * 1 = 1 := by norm_num
    rw [he, ih]
    rfl

theorem smaAt_lt (closes : List ℚ) (i : Nat) (h : i < 199) : smaAt closes i = none := by
  rw [smaAt, if_neg (by omega)]

theorem smaAt_c4 : smaAt (List.replicate 200 (1 : ℚ)) 199 = some 1 := by
  rw [smaAt, if_pos (le_refl 199)]
  norm_num [List.take_replicate, List.sum_replicate]

theorem smaAt_c10 : smaAt (List.replicate 199 (1 : ℚ) ++ [22]) 199 = some (221 / 200) := by
  rw [smaAt, if_pos (le_refl 199)]
  have hlen : (List.replicate 199 (1 : ℚ) ++ [22]).length ≤ 200 := by simp
  norm_num [List.take_of_length_le hlen, List.sum_append, List.sum_replicate]

theorem getD_c4_emas : (List.replicate 200 (1 : ℚ)).getD 199 0 = 1 := by
  simp [List.getD_eq_getElem?_getD, List.getElem?_replicate]

theorem getD_c10_emas : (List.replicate 199 (1 : ℚ) ++ [3]).getD 199 0 = 3 := by
  have h : (List.replicate 199 (1 : ℚ) ++ [3])[199]? = some 3 := by
    rw [List.getElem?_append_right (by simp)]
    simp
  simp [List.getD_eq_getElem?_getD, h]

theorem c4_walk : ∀ (k i : Nat), i + (k + 1) = 200 →
    zoneRowsAux (List.replicate 200 1) (List.replicate 200 1) i
      (List.replicate (k + 1) (mkBar 0 1 1 1)) =
    List.replicate k ((0 : Nat), (none : Option Color)) ++ [(0, some Color.red)] := by
  intro k
  induction k with
  | zero =>
    intro i hi
    have hi' : i = 199 := by omega
    subst hi'
    have hb : List.replicate (0 + 1) (mkBar 0 1 1 1) = mkBar 0 1 1 1 :: [] := rfl
    rw [hb, zoneRowsAux_cons, zoneRowsAux_nil, smaAt_c4]
    simp only [Option.map_some']
    rw [getD_c4_emas, if_neg (by norm_num [mkBar])]
    rfl
  | succ k ih =>
    intro i hi
    have hb : List.replicate (k + 1 + 1) (mkBar 0 1 1 1) =
        mkBar 0 1 1 1 :: List.replicate (k + 1) (mkBar 0 1 1 1) := List.replicate_succ ..
    rw [hb, zoneRowsAux_cons, smaAt_lt _ i (by omega), ih (i + 1) (by omega)]
    simp only [Option.map_none']
    rw [List.replicate_succ, List.cons_append]
    rfl

theorem c10_walk : ∀ (k i : Nat), i + (k + 1) = 200 →
    zoneRowsAux (List.replicate 199 1 ++ [22]) (List.replicate 199 1 ++ [3]) i
      (List.replicate k (mkBar 0 1 1 1) ++ [mkBar 199 22 1 1]) =
    List.replicate k ((0 : Nat), (none : Option Color)) ++ [(199, some Color.green)] := by
  intro k
  induction k with
  | zero =>
    intro i hi
    have hi' : i = 199 := by omega
    subst hi'
    rw [List.replicate_zero, List.nil_append, zoneRowsAux_cons, zoneRowsAux_nil, smaAt_c10]
    simp only [Option.map_some']
    rw [getD_c10_emas, if_pos (by norm_num [mkBar])]
    rfl
  | succ k ih =>
    intro i hi
    have hb : List.replicate (k + 1) (mkBar 0 1 1 1) =
        mkBar 0 1 1 1 :: List.replicate k (mkBar 0 1 1 1) := List.replicate_succ ..
    rw [hb, List.cons_append, zoneRowsAux_cons, smaAt_lt _ i (by omega),
      ih (i + 1) (by omega)]
    simp only [Option.map_none']
    rw [List.replicate_succ, List.cons_append]
    rfl

theorem c4Zones_eq :
    zoneRows c4Bars =
      List.replicate 199 ((0 : Nat), (none : Option Color)) ++ [(0, some Color.red)] ∧
    iterate_spy_zones c4Bars = [] := by
  have hmap : c4Bars.map Bar.close = List.replicate 200 1 := by
    rw [c4Bars, List.map_replicate]
    rfl
  have h200 : (List.replicate 200 (1 : ℚ)) = 1 :: List.replicate 199 1 := rfl
  have hema : emaCol (List.replicate 200 (1 : ℚ)) = List.replicate 200 1 := by
    rw [h200]
    simp only [emaCol]
    rw [emaColAux_const, ← h200]
  have hz : zoneRows c4Bars =
      List.replicate 199 ((0 : Nat), (none : Option Color)) ++ [(0, some Color.red)] := by
    rw [zoneRows, hmap, hema]
    have hb : c4Bars = List.replicate (199 + 1) (mkBar 0 1 1 1) := rfl
    rw [hb]
    exact c4_walk 199 0 (by omega)
  refine ⟨hz, ?_⟩
  rw [iterate_spy_zones, hz, emitZones_skip_none 0 199, emitZones_cons_some,
    if_pos rfl, emitZones_nil]

theorem c10Zones_eq : iterate_spy_zones c10Bars = [(Color.green, 199)] := by
  have hmap : c10Bars.map Bar.close = List.replicate 199 1 ++ [22] := by
    rw [c10Bars, List.map_append, List.map_replicate]
    rfl
  have h199 : (List.replicate 199 (1 : ℚ) ++ [22]) = 1 :: (List.replicate 198 1 ++ [22]) := rfl
  have hema : emaCol (List.replicate 199 (1 : ℚ) ++ [22]) = List.replicate 199 1 ++ [3] := by
    rw [h199]
    simp only [emaCol]
    rw [emaColAux_c10]
    rfl
  rw [iterate_spy_zones, zoneRows, hmap, hema, c10Bars,
    c10_walk 199 0 (by omega), emitZones_skip_none 0 199, emitZones_cons_some,
    if_neg (by decide), emitZones_nil]

theorem c10_first_zone_green_witness :
    ((Color.green, 199) : Color × Nat).1 = Color.green :=
  c10_first_zone_green c10Bars (Color.green, 199) [] c10Zones_eq

theorem zoneRowsAux_getElem (closes emas : List ℚ) :
    ∀ (l : List Bar) (j i : Nat),
      (zoneRowsAux closes emas j l)[i]? = (l[i]?).map (fun b =>
        (b.date, (smaAt closes (j + i)).map (fun s =>
          if s < b.close ∧ s < emas.getD (j + i) 0 then Color.green else Color.red))) := by
  intro l
  induction l with
  | nil => intro j i; simp [zoneRowsAux_nil]
  | cons b rest ih =>
    intro j i
    rcases i with - | i
    · rw [zoneRowsAux_cons]
      simp
    · rw [zoneRowsAux_cons, List.getElem?_cons_succ, List.getElem?_cons_succ, ih (j + 1) i,
        show j + 1 + i = j + (i + 1) from by omega]

/-- C4 as amended: each date with a defined SMA(200) classifies green
exactly when close > SMA(200) and EMA(20) > SMA(200), red otherwise; a
ZoneRecord is inserted exactly on the dates where the classification
differs from the running comparison color, which is seeded red before any
emission (adjacent emitted colors therefore always differ and every emitted
record carries its date's classification); hence the first emitted record,
if any, is green -- a leading run of red classifications emits nothing. -/
theorem c4_zone_classifier (bars : List Bar) :
    (∀ (i : Nat) (b : Bar) (s : ℚ), bars[i]? = some b →
      smaAt (bars.map Bar.close) i = some s →
      (((zoneRows bars)[i]? = some (b.date, some Color.green)) ↔
        (s < b.close ∧ s < emaAt (bars.map Bar.close) i)) ∧
      (((zoneRows bars)[i]? = some (b.date, some Color.red)) ↔
        ¬(s < b.close ∧ s < emaAt (bars.map Bar.close) i))) ∧
    (∀ p ∈ iterate_spy_zones bars, (p.2, some p.1) ∈ zoneRows bars) ∧
    List.Chain' (fun p q : Color × Nat => p.1 ≠ q.1) (iterate_spy_zones bars) ∧
    (∀ (hd : Color × Nat) (tl : List (Color × Nat)),
      iterate_spy_zones bars = hd :: tl → hd.1 = Color.green) := by
  refine ⟨?_, ?_, ?_, ?_⟩
  · intro i b s hb hs
    have hz := zoneRowsAux_getElem (bars.map Bar.close) (emaCol (bars.map Bar.close)) bars 0 i
    rw [zero_add] at hz
    rw [hb, hs] at hz
    simp only [Option.map_some'] at hz
    have hzz : (zoneRows bars)[i]? = some (b.date,
        some (if s < b.close ∧ s < emaAt (bars.map Bar.close) i then Color.green
          else Color.red)) := hz
    by_cases hcond : s < b.close ∧ s < emaAt (bars.map Bar.close) i
    · rw [if_pos hcond] at hzz
      constructor
      · exact iff_of_true hzz hcond
      · rw [hzz]
        refine iff_of_false ?_ (by simpa using hcond)
        simp
    · rw [if_neg hcond] at hzz
      constructor
      · rw [hzz]
        refine iff_of_false ?_ hcond
        simp
      · exact iff_of_true hzz hcond
  · intro p hp
    exact emitZones_mem (zoneRows bars) Color.red p hp
  · exact emitZones_chain' (zoneRows bars) Color.red
  · intro hd tl h
    have hne := emitZones_head_ne (zoneRows bars) Color.red hd tl h
    cases hh : hd.1
    · rfl
    · exact absurd hh hne

/-- C4 counterexample: on the constant reference series every classified
date is red (the final index 199 classifies red), yet iterate_spy_zones
emits no record at all -- the very first classified color is not emitted
as an initial regime record, because the comparison color is seeded red. -/
theorem c4_counterexample :
    (zoneRows c4Bars)[199]? = some (0, some Color.red) ∧
    iterate_spy_zones c4Bars = [] := by
  obtain ⟨hz, he⟩ := c4Zones_eq
  refine ⟨?_, he⟩
  rw [hz, List.getElem?_append_right (by simp), List.length_replicate]
  simp

/-! ## Field lemmas for the historical phases -/

theorem acceptedB_eq_some (l : Option Sig) (vwap : List VwapRow) (d bd : Nat)
    (h : acceptedB l vwap d = some bd) :
    l ≠ some Sig.BUY ∧ bd = d ∧ find_b_signal vwap d = some d := by
  unfold acceptedB at h
  by_cases hL : l = some Sig.BUY
  · rw [if_neg (by simp [hL])] at h
    exact absurd h (by simp)
  · rw [if_pos (by simp [hL])] at h
    rcases hB : find_b_signal vwap d with - | bd'
    · rw [hB] at h
      exact absurd h (by simp)
    · rw [hB] at h
      dsimp only at h
      by_cases hbd : bd' = d
      · rw [if_pos hbd] at h
        have hb2 : bd' = bd := by simpa using h
        exact ⟨hL, by omega, congrArg some hbd⟩
      · rw [if_neg hbd] at h
        exact absurd h (by simp)

theorem acceptedB_of_buy (vwap : List VwapRow) (d : Nat) :
    acceptedB (some Sig.BUY) vwap d = none := by
  simp [acceptedB]

theorem sellPhase_fields (st2 : InstrumentState) (l : Option Sig) (vwap : List VwapRow)
    (d : Nat) :
    (sellPhase st2 l vwap d).all_time_high = st2.all_time_high ∧
    (sellPhase st2 l vwap d).all_time_high_date = st2.all_time_high_date ∧
    (sellPhase st2 l vwap d).trade_signal = st2.trade_signal := by
  unfold sellPhase
  by_cases hL : l = some Sig.BUY
  · rw [if_pos hL]
    rcases hS : find_s_signal vwap d with - | sd
    · exact ⟨rfl, rfl, rfl⟩
    · dsimp only
      by_cases hsd : sd = d
      · rw [if_pos hsd]
        exact ⟨rfl, rfl, rfl⟩
      · rw [if_neg hsd]
        exact ⟨rfl, rfl, rfl⟩
  · rw [if_neg hL]
    exact ⟨rfl, rfl, rfl⟩

theorem sellPhase_last (st2 : InstrumentState) (l : Option Sig) (vwap : List VwapRow)
    (d : Nat) :
    (sellPhase st2 l vwap d).last_trade_signal = st2.last_trade_signal ∨
    (l = some Sig.BUY ∧ find_s_signal vwap d = some d ∧
      (sellPhase st2 l vwap d).last_trade_signal = some Sig.SELL) := by
  unfold sellPhase
  by_cases hL : l = some Sig.BUY
  · rw [if_pos hL]
    rcases hS : find_s_signal vwap d with - | sd
    · left; rfl
    · dsimp only
      by_cases hsd : sd = d
      · rw [if_pos hsd]
        right
        exact ⟨hL, congrArg some hsd, rfl⟩
      · rw [if_neg hsd]
        left; rfl
  · rw [if_neg hL]
    left; rfl

theorem reanchorPhase_signals (st3 : InstrumentState) (bRes : Option Nat)
    (rows : List Bar) :
    (reanchorPhase st3 bRes rows).trade_signal = st3.trade_signal ∧
    (reanchorPhase st3 bRes rows).last_trade_signal = st3.last_trade_signal := by
  unfold reanchorPhase
  rcases bRes with - | bd
  · exact ⟨rfl, rfl⟩
  · dsimp only
    rcases hbar : barAt rows bd with - | bb
    · exact ⟨rfl, rfl⟩
    · dsimp only
      by_cases hz : bb.close ≠ 0
      · rw [if_pos hz]
        exact ⟨rfl, rfl⟩
      · rw [if_neg hz]
        exact ⟨rfl, rfl⟩

theorem reanchorPhase_ath (st3 : InstrumentState) (bRes : Option Nat) (rows : List Bar) :
    ((reanchorPhase st3 bRes rows).all_time_high = st3.all_time_high ∧
     (reanchorPhase st3 bRes rows).all_time_high_date = st3.all_time_high_date) ∨
    (∃ bd bb, bRes = some bd ∧ barAt rows bd = some bb ∧
      (reanchorPhase st3 bRes rows).all_time_high = some bb.close ∧
      (reanchorPhase st3 bRes rows).all_time_high_date = some bd) := by
  unfold reanchorPhase
  rcases bRes with - | bd
  · left; exact ⟨rfl, rfl⟩
  · dsimp only
    rcases hbar : barAt rows bd with - | bb
    · left; exact ⟨rfl, rfl⟩
    · dsimp only
      by_cases hz : bb.close ≠ 0
      · rw [if_pos hz]
        right
        exact ⟨bd, bb, rfl, hbar, rfl, rfl⟩
      · rw [if_neg hz]
        left; exact ⟨rfl, rfl⟩

theorem newHighPhase_signals (st4 : InstrumentState) (l : Option Sig) (ath : ℚ)
    (athDate : Nat) (rows : List Bar) :
    (newHighPhase st4 l ath athDate rows).trade_signal = st4.trade_signal ∧
    (newHighPhase st4 l ath athDate rows).last_trade_signal = st4.last_trade_signal := by
  unfold newHighPhase
  split
  · split
    · exact ⟨rfl, rfl⟩
    · split
      · exact ⟨rfl, rfl⟩
      · exact ⟨rfl, rfl⟩
  · exact ⟨rfl, rfl⟩

theorem newHighPhase_ath (st4 : InstrumentState) (l : Option Sig) (ath : ℚ)
    (athDate : Nat) (rows : List Bar) :
    ((newHighPhase st4 l ath athDate rows).all_time_high = st4.all_time_high ∧
     (newHighPhase st4 l ath athDate rows).all_time_high_date = st4.all_time_high_date) ∨
    (l = some Sig.BUY ∧ ∃ m, ath < m ∧
      (newHighPhase st4 l ath athDate rows).all_time_high = some m) := by
  unfold newHighPhase
  split
  next hL =>
    split
    · left; exact ⟨rfl, rfl⟩
    · split
      next hm => right; exact ⟨hL, _, hm, rfl⟩
      next hm => left; exact ⟨rfl, rfl⟩
  next hL => left; exact ⟨rfl, rfl⟩

theorem histStep_eq (st1 : InstrumentState) (l : Option Sig) (ath : ℚ) (athDate : Nat)
    (vwap : List VwapRow) (rows : List Bar) (d : Nat) :
    histStep st1 l ath athDate vwap rows d =
      newHighPhase
        (reanchorPhase
          (sellPhase
            (match acceptedB l vwap d with
             | some _ => { st1 with last_trade_signal := some Sig.BUY }
             | none => st1)
            l vwap d)
          (acceptedB l vwap d) rows)
        l ath athDate rows := rfl

/-- The today branch either leaves the persisted signal alone or writes the
one the fired two-bar pattern confirms. -/
theorem todayStep_last (st : InstrumentState) (l : Option Sig) (vwap : List VwapRow) :
    (todayStep st l vwap).last_trade_signal = st.last_trade_signal ∨
    (l = some Sig.BUY ∧ (find_two_bar_s_signal (lastN vwap 4)).isSome = true ∧
      (todayStep st l vwap).last_trade_signal = some Sig.SELL) ∨
    (l ≠ some Sig.BUY ∧ (find_two_bar_b_signal (lastN vwap 4)).isSome = true ∧
      (todayStep st l vwap).last_trade_signal = some Sig.BUY) := by
  unfold todayStep
  by_cases hL : l = some Sig.BUY
  · rw [if_pos hL]
    rcases hS : find_two_bar_s_signal (lastN vwap 4) with - | sd
    · left; rfl
    · right; left
      exact ⟨hL, rfl, rfl⟩
  · rw [if_neg hL]
    rcases hB : find_two_bar_b_signal (lastN vwap 4) with - | bd
    · left; rfl
    · right; right
      exact ⟨hL, rfl, rfl⟩

/-- The historical branch either leaves the persisted signal alone, writes
BUY on an accepted 3-bar BUY landing on the current date, or writes SELL on
a 3-bar SELL landing on the current date. -/
theorem histStep_last (st1 : InstrumentState) (l : Option Sig) (ath : ℚ) (athDate : Nat)
    (vwap : List VwapRow) (rows : List Bar) (d : Nat) :
    (histStep st1 l ath athDate vwap rows d).last_trade_signal = st1.last_trade_signal ∨
    (l ≠ some Sig.BUY ∧ find_b_signal vwap d = some d ∧
      (histStep st1 l ath athDate vwap rows d).last_trade_signal = some Sig.BUY) ∨
    (l = some Sig.BUY ∧ find_s_signal vwap d = some d ∧
      (histStep st1 l ath athDate vwap rows d).last_trade_signal = some Sig.SELL) := by
  rw [histStep_eq]
  rcases hbr : acceptedB l vwap d with - | bd
  · -- no accepted BUY: the signal comes from the SELL phase if at all
    have hnh := (newHighPhase_signals (reanchorPhase (sellPhase st1 l vwap d) none rows)
      l ath athDate rows).2
    have hra := (reanchorPhase_signals (sellPhase st1 l vwap d) none rows).2
    rcases sellPhase_last st1 l vwap d with hsp | ⟨hL, hS, hsp⟩
    · left; rw [hnh, hra, hsp]
    · right; right
      exact ⟨hL, hS, by rw [hnh, hra, hsp]⟩
  · -- accepted BUY: the SELL phase is dead (the local signal is not BUY)
    obtain ⟨hL, hbd, hB⟩ := acceptedB_eq_some l vwap d bd hbr
    have hst2 : InstrumentState.last_trade_signal
        { st1 with last_trade_signal := some Sig.BUY } = some Sig.BUY := rfl
    have hnh := (newHighPhase_signals
      (reanchorPhase (sellPhase { st1 with last_trade_signal := some Sig.BUY } l vwap d)
        (some bd) rows) l ath athDate rows).2
    have hra := (reanchorPhase_signals
      (sellPhase { st1 with last_trade_signal := some Sig.BUY } l vwap d) (some bd) rows).2
    have hsp : InstrumentState.last_trade_signal
        (sellPhase { st1 with last_trade_signal := some Sig.BUY } l vwap d) = some Sig.BUY := by
      unfold sellPhase
      rw [if_neg hL]
    right; left
    exact ⟨hL, hB, by rw [hnh, hra, hsp]⟩

/-- The historical branch either leaves the high fields alone, re-anchors
them to the close of an accepted BUY date (the current date), or raises the
high to a strictly larger maximum found after the anchor. -/
theorem histStep_ath (st1 : InstrumentState) (l : Option Sig) (ath : ℚ) (athDate : Nat)
    (vwap : List VwapRow) (rows : List Bar) (d : Nat) :
    ((histStep st1 l ath athDate vwap rows d).all_time_high = st1.all_time_high ∧
     (histStep st1 l ath athDate vwap rows d).all_time_high_date = st1.all_time_high_date) ∨
    (l ≠ some Sig.BUY ∧ find_b_signal vwap d = some d ∧
      ∃ bb, barAt rows d = some bb ∧
        (histStep st1 l ath athDate vwap rows d).all_time_high = some bb.close ∧
        (histStep st1 l ath athDate vwap rows d).all_time_high_date = some d) ∨
    (l = some Sig.BUY ∧ ∃ m, ath < m ∧
      (histStep st1 l ath athDate vwap rows d).all_time_high = some m) := by
  rw [histStep_eq]
  rcases hbr : acceptedB l vwap d with - | bd
  · -- no accepted BUY: only the new-high scan can move the high
    rcases newHighPhase_ath (reanchorPhase (sellPhase st1 l vwap d) none rows)
        l ath athDate rows with ⟨hnh1, hnh2⟩ | ⟨hL, m, hm, hnh⟩
    · left
      have hra := reanchorPhase_ath (sellPhase st1 l vwap d) none rows
      rcases hra with ⟨hra1, hra2⟩ | ⟨bd, bb, hcontra, -⟩
      · have hsp := sellPhase_fields st1 l vwap d
        exact ⟨by rw [hnh1, hra1, hsp.1], by rw [hnh2, hra2, hsp.2.1]⟩
      · exact absurd hcontra (by simp)
    · right; right
      exact ⟨hL, m, hm, hnh⟩
  · -- accepted BUY: the new-high scan is dead (the local signal is not BUY)
    obtain ⟨hL, hbd, hB⟩ := acceptedB_eq_some l vwap d bd hbr
    have hnh := newHighPhase_signals (reanchorPhase
      (sellPhase { st1 with last_trade_signal := some Sig.BUY } l vwap d) (some bd) rows)
      l ath athDate rows
    have hnha : newHighPhase (reanchorPhase
        (sellPhase { st1 with last_trade_signal := some Sig.BUY } l vwap d) (some bd) rows)
        l ath athDate rows = reanchorPhase
        (sellPhase { st1 with last_trade_signal := some Sig.BUY } l vwap d) (some bd) rows := by
      unfold newHighPhase
      rw [if_neg hL]
    rw [hnha]
    rcases reanchorPhase_ath
        (sellPhase { st1 with last_trade_signal := some Sig.BUY } l vwap d) (some bd) rows
      with ⟨hra1, hra2⟩ | ⟨bd', bb, hbd', hbar, hath, hdat⟩
    · -- the accepted date is absent from the index or its close is zero
      left
      have hsp := sellPhase_fields { st1 with last_trade_signal := some Sig.BUY } l vwap d
      exact ⟨by rw [hra1, hsp.1], by rw [hra2, hsp.2.1]⟩
    · right; left
      have hbd2 : bd' = d := by
        have : bd = bd' := by simpa using hbd'
        omega
      rw [hbd2] at hbar hdat
      exact ⟨hL, hB, bb, hbar, hath, hdat⟩

theorem splitFactorToday_ne_one (w : StockWindow) (d : Nat)
    (h : splitFactorToday w d ≠ 1) :
    w.hasSplitFactor = true ∧ ∃ b, barAt w.rows d = some b ∧ b.split_factor ≠ 1 := by
  unfold splitFactorToday at h
  by_cases hsf : w.hasSplitFactor
  · rw [if_pos hsf] at h
    rcases hb : barAt w.rows d with - | b
    · rw [hb] at h
      exact absurd rfl h
    · rw [hb] at h
      exact ⟨hsf, b, rfl, h⟩
  · rw [if_neg hsf] at h
    exact absurd rfl h

/-! ## Claim C1 (amended): where the all-time high can fall -/

/-- C1 as amended: with a persisted high in place, a call that leaves a
strictly smaller all_time_high behind is either the split override
(split_factor of the current date differs from 1) or a confirmed 3-bar BUY
re-anchor, which rewrites the high to the signal date's close; no other
transition lowers the high (the new-high scan only raises it and today's
branch never writes it). -/
theorem c1_high_decrease_only_on_reset (st : InstrumentState) (w : StockWindow) (d : Nat)
    (z : Color) (t : Bool) (h h' : ℚ) (hd0 : Nat)
    (h1 : st.all_time_high = some h) (h2 : st.all_time_high_date = some hd0)
    (h3 : (process_stock_data st w d z t).all_time_high = some h')
    (hlt : h' < h) :
    splitFactorToday w d ≠ 1 ∨ buyConfirmedAt st w d t := by
  by_cases hsft : splitFactorToday w d = 1
  case neg => exact Or.inl hsft
  right
  have hsame : ¬ ((process_stock_data st w d z t).all_time_high = st.all_time_high) := by
    intro hne
    rw [hne, h1] at h3
    have heq : h = h' := by simpa using h3
    rw [heq] at hlt
    exact lt_irrefl h' hlt
  rcases hr : w.rows with - | ⟨r0, rest⟩
  · exact absurd (by rw [process_invalid st w d z t (Or.inl hr)]) hsame
  · by_cases hdt : w.isDatetimeIndex = true
    case neg =>
      have hf : w.isDatetimeIndex = false := by
        revert hdt; cases w.isDatetimeIndex <;> simp
      exact absurd (by rw [process_invalid st w d z t (Or.inr (Or.inl hf))]) hsame
    by_cases hcl : w.hasClose = true
    case neg =>
      have hf : w.hasClose = false := by
        revert hcl; cases w.hasClose <;> simp
      exact absurd (by rw [process_invalid st w d z t (Or.inr (Or.inr (Or.inl hf)))]) hsame
    by_cases hlen : w.rows.length < 4
    case pos =>
      exact absurd (by rw [process_invalid st w d z t (Or.inr (Or.inr (Or.inr hlen)))]) hsame
    rw [process_nonsplit st w d z t r0 rest hr hdt hcl (by omega) hsft,
      fetchState_of_some st r0 h hd0 h1 h2] at h3
    dsimp only at h3
    by_cases hv : calculate_anchored_vwap w.rows hd0 = []
    case pos =>
      rw [if_pos hv] at h3
      rw [h1] at h3
      have heq : h = h' := by simpa using h3
      rw [heq] at hlt
      exact absurd hlt (lt_irrefl h')
    rw [if_neg hv] at h3
    cases t with
    | true =>
      rw [if_pos rfl] at h3
      have hta := (todayStep_ath st st.last_trade_signal
        (calculate_anchored_vwap w.rows hd0)).1
      rw [hta, h1] at h3
      have heq : h = h' := by simpa using h3
      rw [heq] at hlt
      exact absurd hlt (lt_irrefl h')
    | false =>
      rw [if_neg (by simp)] at h3
      rcases histStep_ath st st.last_trade_signal h hd0
          (calculate_anchored_vwap w.rows hd0) w.rows d with
        ⟨ha1, -⟩ | ⟨hL, hB, bb, hbar, hath, -⟩ | ⟨hL, m, hm, hath⟩
      · rw [ha1, h1] at h3
        have heq : h = h' := by simpa using h3
        rw [heq] at hlt
        exact absurd hlt (lt_irrefl h')
      · unfold buyConfirmedAt
        rw [hr]
        dsimp only
        rw [fetchState_of_some st r0 h hd0 h1 h2]
        dsimp only
        rw [← hr]
        exact ⟨hL, hB⟩
      · rw [hath] at h3
        have heq : m = h' := by simpa using h3
        rw [heq] at hm
        exact absurd hlt (not_lt_of_gt hm)

/-- Every way process_stock_data can leave the persisted last_trade_signal:
unchanged, forced BUY by the split override, BUY on a confirmed BUY
pattern, or SELL on a confirmed SELL pattern. -/
theorem process_last_cases (st : InstrumentState) (w : StockWindow) (d : Nat)
    (z : Color) (t : Bool) :
    (process_stock_data st w d z t).last_trade_signal = st.last_trade_signal ∨
    (splitFactorToday w d ≠ 1 ∧
      (process_stock_data st w d z t).last_trade_signal = some Sig.BUY) ∨
    (buyConfirmedAt st w d t ∧
      (process_stock_data st w d z t).last_trade_signal = some Sig.BUY) ∨
    (sellConfirmedAt st w d t ∧
      (process_stock_data st w d z t).last_trade_signal = some Sig.SELL) := by
  rcases hr : w.rows with - | ⟨r0, rest⟩
  · left; rw [process_invalid st w d z t (Or.inl hr)]
  by_cases hdt : w.isDatetimeIndex = true
  case neg =>
    have hf : w.isDatetimeIndex = false := by
      revert hdt; cases w.isDatetimeIndex <;> simp
    left; rw [process_invalid st w d z t (Or.inr (Or.inl hf))]
  by_cases hcl : w.hasClose = true
  case neg =>
    have hf : w.hasClose = false := by
      revert hcl; cases w.hasClose <;> simp
    left; rw [process_invalid st w d z t (Or.inr (Or.inr (Or.inl hf)))]
  by_cases hlen : w.rows.length < 4
  case pos =>
    left; rw [process_invalid st w d z t (Or.inr (Or.inr (Or.inr hlen)))]
  by_cases hsft : splitFactorToday w d = 1
  case neg =>
    obtain ⟨hsf, b, hb, hbs⟩ := splitFactorToday_ne_one w d hsft
    right; left
    refine ⟨hsft, ?_⟩
    rw [process_split st w d z t b hdt hcl (by omega) hb hsf hbs]
  rw [process_nonsplit st w d z t r0 rest hr hdt hcl (by omega) hsft]
  by_cases hv : calculate_anchored_vwap w.rows (fetchState st r0).athDate = []
  case pos =>
    left
    rw [if_pos hv]
    exact (fetchState_st st r0).1.2
  rw [if_neg hv]
  have hfst := (fetchState_st st r0).1.2
  cases t with
  | true =>
    rw [if_pos rfl]
    rcases todayStep_last (fetchState st r0).st (fetchState st r0).lastSig
        (calculate_anchored_vwap w.rows (fetchState st r0).athDate) with
      hun | ⟨hL, hS, hlast⟩ | ⟨hL, hB, hlast⟩
    · left; rw [hun, hfst]
    · right; right; right
      refine ⟨?_, hlast⟩
      unfold sellConfirmedAt
      rw [hr]
      dsimp only
      rw [← hr]
      exact ⟨hL, by rw [if_pos rfl]; exact hS⟩
    · right; right; left
      refine ⟨?_, hlast⟩
      unfold buyConfirmedAt
      rw [hr]
      dsimp only
      rw [← hr]
      exact ⟨hL, by rw [if_pos rfl]; exact hB⟩
  | false =>
    rw [if_neg (by simp)]
    rcases histStep_last (fetchState st r0).st (fetchState st r0).lastSig
        (fetchState st r0).ath (fetchState st r0).athDate
        (calculate_anchored_vwap w.rows (fetchState st r0).athDate) w.rows d with
      hun | ⟨hL, hB, hlast⟩ | ⟨hL, hS, hlast⟩
    · left; rw [hun, hfst]
    · right; right; left
      refine ⟨?_, hlast⟩
      unfold buyConfirmedAt
      rw [hr]
      dsimp only
      rw [← hr]
      exact ⟨hL, by rw [if_neg (by simp)]; exact hB⟩
    · right; right; right
      refine ⟨?_, hlast⟩
      unfold sellConfirmedAt
      rw [hr]
      dsimp only
      rw [← hr]
      exact ⟨hL, by rw [if_neg (by simp)]; exact hS⟩

/-! ## Claim C2 (amended): the last-signal toggle -/

/-- C2 as amended: on dates without a split the persisted last_trade_signal
is a two-phase toggle -- once BUY it can only leave BUY through a confirmed
SELL pattern, and once SELL it can only leave SELL through a confirmed BUY
pattern; the one exception is the split override, which forces BUY from any
state without any pattern confirmation (see the counterexample). -/
theorem c2_last_signal_toggle (st : InstrumentState) (w : StockWindow) (d : Nat)
    (z : Color) (t : Bool) :
    (st.last_trade_signal = some Sig.BUY →
      (process_stock_data st w d z t).last_trade_signal ≠ some Sig.BUY →
      sellConfirmedAt st w d t) ∧
    (st.last_trade_signal = some Sig.SELL →
      (process_stock_data st w d z t).last_trade_signal ≠ some Sig.SELL →
      splitFactorToday w d ≠ 1 ∨ buyConfirmedAt st w d t) := by
  constructor
  · intro hb hne
    rcases process_last_cases st w d z t with
      hun | ⟨-, hl⟩ | ⟨-, hl⟩ | ⟨hsc, -⟩
    · exact absurd (by rw [hun, hb]) hne
    · exact absurd hl hne
    · exact absurd hl hne
    · exact hsc
  · intro hs hne
    rcases process_last_cases st w d z t with
      hun | ⟨hsp, -⟩ | ⟨hbc, -⟩ | ⟨-, hl⟩
    · exact absurd (by rw [hun, hs]) hne
    · exact Or.inl hsp
    · exact Or.inr hbc
    · exact absurd hl hne

/-- Six-bar split-free history: the peak 100 at date 0 is followed by a
slump and a 3-bar BUY crossover completing at date 4 with close 41. -/
def c1Bars : List Bar :=
  [mkBar 0 100 1 1, mkBar 1 10 1 1, mkBar 2 10 1 1,
   mkBar 3 10 1 1, mkBar 4 41 1 1, mkBar 5 41 1 1]

/-- C1 counterexample: replaying the split-free history above, the
persisted all_time_high falls from 100 (after date 3) to 41 (after date 4)
although no bar has a split factor other than 1 -- the confirmed BUY
re-anchor lowers the high, refuting monotonicity-except-splits. -/
theorem c1_counterexample :
    ((replayTrace c1Bars [] stEmpty)[3]?).bind InstrumentState.all_time_high = some 100 ∧
    ((replayTrace c1Bars [] stEmpty)[4]?).bind InstrumentState.all_time_high = some 41 ∧
    (∀ b ∈ c1Bars, b.split_factor = 1) ∧ ((41 : ℚ) < 100) := by
  norm_num +decide [replayTrace, replayAux, process_stock_data, splitFactorToday, barAt,
    fetchState, calculate_anchored_vwap, cavAux, todayStep, histStep, acceptedB,
    sellPhase, reanchorPhase, newHighPhase, idxmaxClose, find_b_signal, find_s_signal,
    vwapUpTo, scanFirst, buyCond, sellCond, gtO, geO, ltO, leO, lastN,
    find_two_bar_b_signal, find_two_bar_s_signal, find_zone_for_date, fzAux, mkBar,
    c1Bars, stEmpty, List.insertionSort, List.orderedInsert, List.dedup, List.filter,
    List.find?]

/-- The date-4 window of the series above. -/
def c1W : StockWindow :=
  ⟨[mkBar 0 100 1 1, mkBar 1 10 1 1, mkBar 2 10 1 1, mkBar 3 10 1 1, mkBar 4 41 1 1],
    true, true, true⟩

/-- State carrying the peak before the BUY re-anchor. -/
def c1St : InstrumentState := ⟨some 100, some 0, none, none⟩

theorem c1_high_decrease_only_on_reset_witness :
    splitFactorToday c1W 4 ≠ 1 ∨ buyConfirmedAt c1St c1W 4 false :=
  c1_high_decrease_only_on_reset c1St c1W 4 Color.red false 100 41 0 rfl rfl
    (by norm_num +decide [process_stock_data, splitFactorToday, barAt, fetchState,
      calculate_anchored_vwap, cavAux, histStep, acceptedB, sellPhase, reanchorPhase,
      newHighPhase, idxmaxClose, find_b_signal, find_s_signal, vwapUpTo, scanFirst,
      buyCond, sellCond, gtO, geO, ltO, leO, mkBar, c1W, c1St, List.filter, List.find?])
    (by norm_num)

/-- C2 counterexample: a split on the current date forces the persisted
signal from SELL to BUY although no BUY pattern is confirmed that day --
the pure two-phase toggle does not hold across split events. -/
theorem c2_counterexample :
    c6St.last_trade_signal = some Sig.SELL ∧
    (process_stock_data c6St c6W 3 Color.red false).last_trade_signal = some Sig.BUY ∧
    ¬ buyConfirmedAt c6St c6W 3 false := by
  refine ⟨rfl, ?_, ?_⟩
  · rw [process_split c6St c6W 3 Color.red false (mkBar 3 8 1 2) rfl rfl
      (by norm_num [c6W]) (by norm_num [barAt, c6W, mkBar, List.find?]) rfl
      (by norm_num [mkBar])]
  · norm_num +decide [buyConfirmedAt, fetchState, c6St, c6W, calculate_anchored_vwap,
      cavAux, find_b_signal, vwapUpTo, scanFirst, buyCond, gtO, leO, mkBar,
      List.filter]
